import Mathlib

/-!
# MTGDeckBuilder: verification of the deck-construction spec

This file gives a shallow embedding of the MTGDeckBuilder repository and
proves/refutes the frozen claims about it.

Two kinds of definitions appear:

* Frontend code present in the repository (`DeckViewer.tsx`, `DeckAnalysis`,
  `ColorPicker`, `BuilderForm.tsx`, `App`) is translated directly from the
  TypeScript source.

* The core deck-construction pipeline (`mtg_deck_builder` in Python) is not
  part of the available sources; only its documentation is.  Definitions for
  it are marked `Modelled from the spec:` and follow the specification text
  (sections 3-7) word by word where the spec is precise, with the modelling
  decisions noted in the doc comments.
-/

namespace MTGDeckBuilder

/-! ## Character-list string helpers

`String` operations are modelled on the underlying character lists so that
every definition evaluates inside the kernel. -/

/-- Lower-case every character of a character list. -/
def lowerL (l : List Char) : List Char := l.map Char.toLower

/-- Here `leadMatch p l` is true when `p` is an initial segment of `l`. -/
def leadMatch : List Char → List Char → Bool
  | [], _ => true
  | _ :: _, [] => false
  | a :: as, b :: bs => a = b && leadMatch as bs

/-- Here `occursIn p l` is true when `p` occurs contiguously inside `l`. -/
def occursIn (p : List Char) : List Char → Bool
  | [] => leadMatch p []
  | b :: bs => leadMatch p (b :: bs) || occursIn p bs

/-- Case-insensitive substring test on strings. -/
def containsCI (text pat : String) : Bool :=
  occursIn (lowerL pat.data) (lowerL text.data)

/-! ## ColorPicker (frontend source `ColorPicker`, `toggle`)

The component keeps `selected = new Set(value.map(c => c.toUpperCase()))`
and `toggle(code)` deletes `code` when present, inserts it otherwise. -/

/-- Upper-case a string, character by character (JS `toUpperCase` on the
color codes used by the picker). -/
def upperStr (s : String) : String := ⟨s.data.map Char.toUpper⟩

/-- The normalized selected-color set of the picker:
`new Set(value.map(c => c.toUpperCase()))`. -/
def selectedOf (value : List String) : Finset String :=
  (value.map upperStr).toFinset

/-- The `toggle(code)` operation from `ColorPicker`: delete the code if present, insert it
otherwise, and emit the resulting set. -/
def toggleColor (s : Finset String) (code : String) : Finset String :=
  if code ∈ s then s.erase code else insert code s

/-! ## BuilderForm (frontend source `loadSelectedConfig`) and App defaults

`loadSelectedConfig` normalizes a parsed YAML object into the form state:
`deck: { name:'', colors:[], size:60, max_card_copies:4, legalities:[],
...(obj.deck) }` and `mana_base: { land_count:24, ...(obj.mana_base||{}) }`.
A JS object spread overrides exactly the keys present in the raw object, so
an absent key is modelled as `none` and the merge as `Option.getD`. -/

/-- The fields of the raw `deck` section that the form normalization gives
defaults to; `none` means the key is absent from the parsed YAML. -/
structure RawDeckSection where
  name : Option String
  colors : Option (List String)
  size : Option Nat
  max_card_copies : Option Nat
  legalities : Option (List String)
deriving Repr, DecidableEq

/-- The raw configuration as parsed from a YAML file; `none` marks an absent
section or key. -/
structure RawConfig where
  deck : RawDeckSection
  mana_base_land_count : Option Nat
deriving Repr, DecidableEq

/-- The normalized `deck` object of the form state. -/
structure FormDeck where
  name : String
  colors : List String
  size : Nat
  max_card_copies : Nat
  legalities : List String
deriving Repr, DecidableEq

/-- The part of the form state populated by `loadSelectedConfig`. -/
structure FormState where
  deck : FormDeck
  mana_base_land_count : Nat
deriving Repr, DecidableEq

/-- The `loadSelectedConfig` function from `BuilderForm.tsx`: spread the raw sections over
the defaults `{name:'', colors:[], size:60, max_card_copies:4,
legalities:[]}` and `{land_count:24}`. -/
def loadSelectedConfig (raw : RawConfig) : FormState :=
  { deck :=
      { name := raw.deck.name.getD ""
        colors := raw.deck.colors.getD []
        size := raw.deck.size.getD 60
        max_card_copies := raw.deck.max_card_copies.getD 4
        legalities := raw.deck.legalities.getD [] }
    mana_base_land_count := raw.mana_base_land_count.getD 24 }

/-- The initial form state of `App` (`PriorityCardsTable.tsx`, the `useState`
literal): `deck: { name:'', colors:[], size:60, max_card_copies:4,
legalities:[] }`, `mana_base: { land_count: 24 }`. -/
def initialForm : FormState :=
  { deck := { name := "", colors := [], size := 60, max_card_copies := 4, legalities := [] }
    mana_base_land_count := 24 }

/-! ## The deck-construction pipeline

The core pipeline (`mtg_deck_builder`) is not among the available sources;
the definitions in this part are modelled from the specification, sections
3-7, as announced in each doc comment. -/

/-- Modelled from the spec: `MatchRule` is the tagged union
`Literal(string) | Regex(compiled pattern)` (section 3).  The regex dialect
used by the configuration format is literal text joined by `.*`
(YAML guide: `/return.*graveyard.*battlefield/`); a pattern is interpreted
as its literal segments, matched in order. -/
inductive MatchRule where
  | lit (s : String)
  | rgx (p : String)
deriving Repr, DecidableEq

/-- Split a regex pattern (as characters) into its literal segments around
each `.*`; `cur` is the reversed segment being accumulated. -/
def regexSegs (cur : List Char) : List Char → List (List Char)
  | [] => [cur.reverse]
  | '.' :: '*' :: rest => cur.reverse :: regexSegs [] rest
  | c :: rest => regexSegs (c :: cur) rest

/-- Find the first occurrence of `p` in the text and return the remaining
suffix after it, if any. -/
def findDrop (p : List Char) : List Char → Option (List Char)
  | [] => if leadMatch p [] then some [] else none
  | b :: bs => if leadMatch p (b :: bs) then some (List.drop p.length (b :: bs))
               else findDrop p bs

/-- Match the literal segments of a `.*`-joined pattern in order. -/
def segsMatch : List (List Char) → List Char → Bool
  | [], _ => true
  | seg :: rest, text =>
      match findDrop seg text with
      | none => false
      | some remaining => segsMatch rest remaining

/-- Modelled from the spec: text-rule matching (section 4.2): both kinds
are case-insensitive, a `Literal` rule matches by substring, a `Regex` rule
by pattern search. -/
def ruleMatches (r : MatchRule) (text : String) : Bool :=
  match r with
  | .lit s => occursIn (lowerL s.data) (lowerL text.data)
  | .rgx p => segsMatch (regexSegs [] (lowerL p.data)) (lowerL text.data)

/-- Modelled from the spec: `mana_penalty: {threshold, penalty_per_point}`
(section 3). -/
structure ManaPenalty where
  threshold : Int
  penalty_per_point : Int
deriving Repr, DecidableEq

/-- Modelled from the spec: `type_bonus` tables (section 3); maps are
association lists. -/
structure TypeBonus where
  basic_types : List (String × Int)
  sub_types : List (String × Int)
  super_types : List (String × Int)
deriving Repr, DecidableEq

/-- Modelled from the spec: `ScoringRules` (section 3). -/
structure ScoringRules where
  keyword_abilities : List (String × Int)
  keyword_actions : List (String × Int)
  ability_words : List (String × Int)
  text_matches : List (MatchRule × Int)
  type_bonus : TypeBonus
  rarity_bonus : List (String × Int)
  mana_penalty : ManaPenalty
  min_score_to_flag : Int
deriving Repr, DecidableEq

/-- Modelled from the spec: `CandidateCard` (section 3), read-only and
owned by the repository. -/
structure CandidateCard where
  name : String
  colors : List String
  color_identity : List String
  mana_value : Int
  rarity : String
  basic_types : List String
  sub_types : List String
  super_types : List String
  keywords : List String
  oracle_text : String
  legalities : List String
  owned_qty : Nat
deriving Repr, DecidableEq

/-- Modelled from the spec: the Scoring Engine (section 4.2), written as the
sequential accumulation the implementation performs: keyword tables, text
matches, type bonuses, rarity bonus, then the mana penalty. -/
def score (card : CandidateCard) (rules : ScoringRules) : Int :=
  let s1 := rules.keyword_abilities.foldl
    (fun acc p => if card.keywords.contains p.1 then acc + p.2 else acc) 0
  let s2 := rules.keyword_actions.foldl
    (fun acc p => if card.keywords.contains p.1 then acc + p.2 else acc) s1
  let s3 := rules.ability_words.foldl
    (fun acc p => if card.keywords.contains p.1 then acc + p.2 else acc) s2
  let s4 := rules.text_matches.foldl
    (fun acc p => if ruleMatches p.1 card.oracle_text then acc + p.2 else acc) s3
  let s5 := rules.type_bonus.basic_types.foldl
    (fun acc p => if card.basic_types.contains p.1 then acc + p.2 else acc) s4
  let s6 := rules.type_bonus.sub_types.foldl
    (fun acc p => if card.sub_types.contains p.1 then acc + p.2 else acc) s5
  let s7 := rules.type_bonus.super_types.foldl
    (fun acc p => if card.super_types.contains p.1 then acc + p.2 else acc) s6
  let s8 := rules.rarity_bonus.foldl
    (fun acc p => if p.1 = card.rarity then acc + p.2 else acc) s7
  if card.mana_value > rules.mana_penalty.threshold then
    s8 - rules.mana_penalty.penalty_per_point * (card.mana_value - rules.mana_penalty.threshold)
  else s8

/-- The additive value of one keyword/type table: the sum of the bonuses of
the entries present in the card's list. -/
def tableBonus (table : List (String × Int)) (present : List String) : Int :=
  (table.map (fun p => if present.contains p.1 then p.2 else 0)).sum

/-- The additive value of the `text_matches` table against the oracle
text. -/
def textBonus (table : List (MatchRule × Int)) (text : String) : Int :=
  (table.map (fun p => if ruleMatches p.1 text then p.2 else 0)).sum

/-- The additive rarity bonus `rarity_bonus[card.rarity]`. -/
def rarityBonusOf (table : List (String × Int)) (rarity : String) : Int :=
  (table.map (fun p => if p.1 = rarity then p.2 else 0)).sum

/-- The mana penalty: `penalty_per_point * (mana_value - threshold)` exactly
when `mana_value > threshold`. -/
def manaPenaltyOf (mp : ManaPenalty) (mv : Int) : Int :=
  if mv > mp.threshold then mp.penalty_per_point * (mv - mp.threshold) else 0

/-- Modelled from the spec: `color_match_mode: {exact|subset|any}`
(section 3). -/
inductive ColorMatchMode where
  | exactMatch
  | subsetMatch
  | anyMatch
deriving Repr, DecidableEq

/-- Modelled from the spec: `Category` (section 3), processed in the fixed
config-declared order. -/
structure DeckCategory where
  key : String
  target : Nat
  preferred_keywords : List String
  priority_text : List MatchRule
  preferred_basic_type_priority : List String
deriving Repr, DecidableEq

/-- Modelled from the spec: `PriorityCard` (section 3). -/
structure PriorityCard where
  name : String
  min_copies : Nat
deriving Repr, DecidableEq

/-- Modelled from the spec: `special_lands: {count, prefer, avoid}`
(section 3). -/
structure SpecialLands where
  count : Nat
  prefer : List String
  avoid : List String
deriving Repr, DecidableEq

/-- Modelled from the spec: `balance: {adjust_by_mana_symbols}`
(section 3). -/
structure ManaBalance where
  adjust_by_mana_symbols : Bool
deriving Repr, DecidableEq

/-- Modelled from the spec: `ManaBaseConfig` (section 3). -/
structure ManaBaseConfig where
  land_count : Nat
  special_lands : SpecialLands
  balance : ManaBalance
deriving Repr, DecidableEq

/-- Modelled from the spec: `FallbackStrategy` (section 3). -/
structure FallbackStrategy where
  fill_with_any : Bool
  fill_priority : List String
  allow_less_than_target : Bool
deriving Repr, DecidableEq

/-- Modelled from the spec: `CardConstraints` (section 3); only
`exclude_keywords` is a hard filter (`rarity_boost` gently biases scoring
and has no hard effect on eligibility). -/
structure CardConstraints where
  rarity_boost : List (String × Int)
  exclude_keywords : List String
deriving Repr, DecidableEq

/-- Modelled from the spec: the normalized `DeckConfig` (section 3),
together with the config-declared categories, priority cards, scoring
rules, constraints, mana base and fallback strategy that the pipeline
stages consume (sections 4.3-4.6). -/
structure DeckConfig where
  name : String
  colors : List String
  color_match_mode : ColorMatchMode
  size : Nat
  max_card_copies : Nat
  allow_colorless : Bool
  legalities : List String
  owned_cards_only : Bool
  categories : List DeckCategory
  card_constraints : CardConstraints
  priority_cards : List PriorityCard
  scoring_rules : ScoringRules
  mana_base : ManaBaseConfig
  fallback_strategy : FallbackStrategy
deriving Repr, DecidableEq

/-- Modelled from the spec: `DeckCard` (section 3). -/
structure DeckCard where
  card : CandidateCard
  qty : Nat
  reasons : List String
  score : Int
deriving Repr, DecidableEq

/-- Modelled from the spec: one entry of `category_summary`
(`map<key,{target,added,remaining}>`, section 3). -/
structure CategorySummary where
  key : String
  target : Nat
  added : Nat
  remaining : Nat
deriving Repr, DecidableEq

/-- Modelled from the spec: `BuildContext` (section 3). -/
structure BuildContext where
  operations : List String
  unmet_conditions : List String
  category_summary : List CategorySummary
deriving Repr, DecidableEq

/-- Modelled from the spec: the result of a successful build
(section 6, `build` entry point with `debug` output included). -/
structure BuildResult where
  decklist : List DeckCard
  build_context : BuildContext
deriving Repr, DecidableEq

/-- Modelled from the spec: the fatal error taxonomy (section 7):
`ConfigValidationError` aborts before selection; `BuildFailure` carries the
partial context. (`RepositoryError` does not arise in the model: the pool
is given as a pure value.) -/
inductive BuildError where
  | configError (msg : String)
  | buildFailure (context : BuildContext)
deriving Repr, DecidableEq

/-! ### Card predicates and deck bookkeeping -/

/-- A card is a land when `Land` is among its (basic) card types. -/
def isLandCard (c : CandidateCard) : Bool := c.basic_types.contains "Land"

/-- Modelled from the spec: a basic land (glossary; `Basic` supertype land),
the only cards exempt from `max_card_copies`. -/
def isBasicLand (c : CandidateCard) : Bool :=
  isLandCard c && c.super_types.contains "Basic"

/-- Modelled from the spec: legality is a hard filter (glossary); a card
must be legal in every format the deck requires. -/
def isLegalFor (legalities : List String) (c : CandidateCard) : Bool :=
  legalities.all (fun f => c.legalities.contains f)

/-- Modelled from the spec: color compatibility by `color_match_mode`
against the card's color identity; colorless cards (empty identity) are
admitted exactly when `allow_colorless` is set. -/
def colorOk (mode : ColorMatchMode) (allowColorless : Bool)
    (colors : List String) (c : CandidateCard) : Bool :=
  if c.color_identity.isEmpty then allowColorless
  else
    match mode with
    | .exactMatch =>
        c.color_identity.all (fun x => colors.contains x)
          && colors.all (fun x => c.color_identity.contains x)
    | .subsetMatch => c.color_identity.all (fun x => colors.contains x)
    | .anyMatch => c.color_identity.any (fun x => colors.contains x)

/-- Total quantity of a given card name across the deck (copy-limit
bookkeeping is global per card name, section 4.3). -/
def countName (deck : List DeckCard) (n : String) : Nat :=
  (deck.map (fun d => if d.card.name = n then d.qty else 0)).sum

/-- Total quantity of all cards in the deck. -/
def totalQty (deck : List DeckCard) : Nat :=
  (deck.map (fun d => d.qty)).sum

/-- Modelled from the spec: the single append operation every stage uses.
Non-basic cards are clipped to the remaining room under `max_card_copies`
(global per-name bookkeeping); basic lands are exempt from the cap
(section 4.5). -/
def addCard (maxCopies : Nat) (deck : List DeckCard) (c : CandidateCard)
    (want : Nat) (reasons : List String) (sv : Int) : List DeckCard :=
  if isBasicLand c then
    if want = 0 then deck else deck ++ [⟨c, want, reasons, sv⟩]
  else
    let add := min want (maxCopies - countName deck c.name)
    if add = 0 then deck else deck ++ [⟨c, add, reasons, sv⟩]

/-- A pending addition computed by a stage before it is applied. -/
structure AddItem where
  card : CandidateCard
  want : Nat
  reasons : List String
  sv : Int
deriving Repr, DecidableEq

/-- Apply a list of pending additions through `addCard`. -/
def applyAdds (maxCopies : Nat) (deck : List DeckCard) (items : List AddItem) :
    List DeckCard :=
  items.foldl (fun d it => addCard maxCopies d it.card it.want it.reasons it.sv) deck

/-! ### Deterministic ordering and helper queries

The spec leaves the tie-break order among equal-scored candidates open and
asks implementers to pick a deterministic rule (section 9); the model
orders by score descending, then by name ascending. -/

/-- Character-list name order (total, decidable, kernel-computable). -/
def nameLE : List Char → List Char → Bool
  | [], _ => true
  | _ :: _, [] => false
  | a :: as, b :: bs => if a = b then nameLE as bs else decide (a < b)

/-- Insert into a sorted list (insertion sort step). -/
def insertBy {α : Type} (le : α → α → Bool) (a : α) : List α → List α
  | [] => [a]
  | b :: bs => if le a b then a :: b :: bs else b :: insertBy le a bs

/-- Deterministic insertion sort. -/
def sortBy {α : Type} (le : α → α → Bool) (l : List α) : List α :=
  l.foldr (insertBy le) []

/-- Candidate order: score descending, ties broken by name ascending. -/
def candLE (sc : CandidateCard → Int) (a b : CandidateCard) : Bool :=
  decide (sc b < sc a) || (decide (sc a = sc b) && nameLE a.name.data b.name.data)

/-- Keep the first card of each name (candidate pools are per-name). -/
def dedupByName (seen : List String) : List CandidateCard → List CandidateCard
  | [] => []
  | c :: cs =>
      if seen.contains c.name then dedupByName seen cs
      else c :: dedupByName (c.name :: seen) cs

/-- Exact-name lookup in the pool (`findByName`, section 6). -/
def findByName : List CandidateCard → String → Option CandidateCard
  | [], _ => none
  | c :: cs, n => if c.name = n then some c else findByName cs n

/-- Ownership snapshot lookup (`ownedQuantity`, section 6). -/
def ownedLookup : List (String × Nat) → String → Nat
  | [], _ => 0
  | (m, q) :: rest, n => if m = n then q else ownedLookup rest n

/-- Stamp the ownership snapshot onto the pool's `owned_qty` fields. -/
def applyOwnership (pool : List CandidateCard) (own : List (String × Nat)) :
    List CandidateCard :=
  pool.map (fun c => { c with owned_qty := ownedLookup own c.name })

/-! ### Priority injection (spec section 4.3) -/

/-- Modelled from the spec: the quantity a priority card is added with:
`min_copies`, capped at `max_card_copies`, capped at `owned_qty` when
`owned_cards_only` (section 4.3). -/
def priorityWant (ownedOnly : Bool) (maxCopies : Nat) (pc : PriorityCard)
    (c : CandidateCard) : Nat :=
  if ownedOnly then min (min pc.min_copies maxCopies) c.owned_qty
  else min pc.min_copies maxCopies

/-- An `unmet_conditions` entry: priority card missing from the pool. -/
def prioNotFoundMsg (pc : PriorityCard) : String :=
  "priority card not found: " ++ pc.name

/-- An `unmet_conditions` entry: priority card not legal or color-compatible. -/
def prioIneligibleMsg (pc : PriorityCard) : String :=
  "priority card not legal or color-compatible: " ++ pc.name

/-- An `unmet_conditions` entry: priority card added below `min_copies`. -/
def prioShortMsg (pc : PriorityCard) (got : Nat) : String :=
  "priority card short: " ++ pc.name ++ " wanted " ++ toString pc.min_copies
    ++ " added " ++ toString got

/-- The deck and `unmet_conditions` entries a stage produces. -/
structure StageOut where
  deck : List DeckCard
  unmets : List String
deriving Repr

/-- Modelled from the spec: the Priority Injector (section 4.3): for each
`PriorityCard` in declaration order, look the card up by exact name; if
found, legal and color-compatible (`elig`), add `priorityWant` copies
tagged `reasons=["priority"]`; every shortfall appends a descriptive
`unmet_conditions` entry and is non-fatal. -/
def priorityStage (sc : CandidateCard → Int) (ownedOnly : Bool) (maxCopies : Nat)
    (elig : CandidateCard → Bool) (pool : List CandidateCard) :
    List PriorityCard → List DeckCard → StageOut
  | [], deck => ⟨deck, []⟩
  | pc :: rest, deck =>
      match findByName pool pc.name with
      | none =>
          let out := priorityStage sc ownedOnly maxCopies elig pool rest deck
          ⟨out.deck, prioNotFoundMsg pc :: out.unmets⟩
      | some c =>
          if elig c then
            let w := priorityWant ownedOnly maxCopies pc c
            let deck1 := addCard maxCopies deck c w ["priority"] (sc c)
            let out := priorityStage sc ownedOnly maxCopies elig pool rest deck1
            ⟨out.deck,
             (if w < pc.min_copies then [prioShortMsg pc w] else []) ++ out.unmets⟩
          else
            let out := priorityStage sc ownedOnly maxCopies elig pool rest deck
            ⟨out.deck, prioIneligibleMsg pc :: out.unmets⟩

/-! ### Category selection (spec section 4.4) -/

/-- Modelled from the spec: the implicit candidate filter of category
selection (section 4.4): deck colors per `color_match_mode`, legality,
ownership if configured, `exclude_keywords` from `CardConstraints`; lands
are supplied by the Mana Base Builder, so category candidates are
non-lands. -/
def spellEligible (mode : ColorMatchMode) (allowColorless : Bool)
    (colors legalities excludeKws : List String) (ownedOnly : Bool)
    (c : CandidateCard) : Bool :=
  isLegalFor legalities c && colorOk mode allowColorless colors c
    && (!ownedOnly || decide (0 < c.owned_qty))
    && !(c.keywords.any (fun k => excludeKws.contains k))
    && !isLandCard c

/-- Modelled from the spec: the category's `preferred_keywords` /
`priority_text` / `preferred_basic_type_priority` act as additional
additive bonuses (section 4.4); each match contributes one point. -/
def categoryBonus (cat : DeckCategory) (c : CandidateCard) : Int :=
  (cat.preferred_keywords.map
      (fun k => if c.keywords.contains k then (1 : Int) else 0)).sum
    + (cat.priority_text.map
        (fun r => if ruleMatches r c.oracle_text then (1 : Int) else 0)).sum
    + (cat.preferred_basic_type_priority.map
        (fun t => if c.basic_types.contains t then (1 : Int) else 0)).sum

/-- Walk the ranked candidates, assigning each distinct name up to the
remaining target, the per-name room under the cap, and (when configured)
the owned quantity. -/
def pickItems (ownedOnly : Bool) (maxCopies : Nat) (deck : List DeckCard)
    (tag : String) (sc : CandidateCard → Int) :
    Nat → List CandidateCard → List AddItem
  | _, [] => []
  | remaining, c :: cs =>
      let room := maxCopies - countName deck c.name
      let avail := if ownedOnly then min room c.owned_qty else room
      let q := min remaining avail
      if q = 0 then pickItems ownedOnly maxCopies deck tag sc remaining cs
      else ⟨c, q, [tag], sc c⟩ :: pickItems ownedOnly maxCopies deck tag sc (remaining - q) cs

/-- Total quantity of a list of pending additions. -/
def itemsQty (items : List AddItem) : Nat := (items.map (fun it => it.want)).sum

/-- Modelled from the spec: one category's selection (section 4.4): filter
the pool by the implicit filters and the remaining per-name room, score
with the engine plus the category bonus, sort descending (ties by name),
and fill up to the category target. -/
def categoryItems (sc : CandidateCard → Int) (spell : CandidateCard → Bool)
    (maxCopies : Nat) (ownedOnly : Bool) (pool : List CandidateCard)
    (cat : DeckCategory) (deck : List DeckCard) : List AddItem :=
  let catSc := fun c => sc c + categoryBonus cat c
  let cands := sortBy (candLE catSc)
    (dedupByName []
      (pool.filter (fun c => spell c && decide (countName deck c.name < maxCopies))))
  pickItems ownedOnly maxCopies deck ("category: " ++ cat.key) catSc cat.target cands

/-- An `unmet_conditions` entry: category shortfall (key, requested vs
achieved). -/
def catShortMsg (cat : DeckCategory) (added : Nat) : String :=
  "category short: " ++ cat.key ++ " target " ++ toString cat.target
    ++ " added " ++ toString added

/-- The output of the category phase. -/
structure CatsOut where
  deck : List DeckCard
  unmets : List String
  summary : List CategorySummary
deriving Repr

/-- Modelled from the spec: the Category Selector (section 4.4), iterating
the declared categories in order, recording
`category_summary[key] = {target, added, remaining}` and a non-fatal
`unmet_conditions` entry when `added < target`. -/
def categoriesStage (sc : CandidateCard → Int) (spell : CandidateCard → Bool)
    (maxCopies : Nat) (ownedOnly : Bool) (pool : List CandidateCard) :
    List DeckCategory → List DeckCard → CatsOut
  | [], deck => ⟨deck, [], []⟩
  | cat :: rest, deck =>
      let items := categoryItems sc spell maxCopies ownedOnly pool cat deck
      let deck1 := applyAdds maxCopies deck items
      let added := itemsQty items
      let out := categoriesStage sc spell maxCopies ownedOnly pool rest deck1
      ⟨out.deck,
       (if added < cat.target then [catShortMsg cat added] else []) ++ out.unmets,
       ⟨cat.key, cat.target, added, cat.target - added⟩ :: out.summary⟩

/-- Modelled from the spec: the policy note of section 4.4: when the sum of
category targets plus `land_count` exceeds `deck.size`, targets are scaled
down proportionally before selection runs. -/
def scaleTargets (size landCount : Nat) (cats : List DeckCategory) :
    List DeckCategory :=
  let budget := size - landCount
  let total := (cats.map (fun c => c.target)).sum
  if total ≤ budget then cats
  else cats.map (fun c => { c with target := c.target * budget / total })

/-! ### Mana base (spec section 4.5) -/

/-- The canonical basic land name for a deck color. -/
def basicLandName (color : String) : String :=
  if color = "W" then "Plains"
  else if color = "U" then "Island"
  else if color = "B" then "Swamp"
  else if color = "R" then "Mountain"
  else if color = "G" then "Forest"
  else "Wastes"

/-- Modelled from the spec: the basic land card supplied for a deck color
(basic lands are produced by the builder itself, section 4.5). -/
def basicLandFor (color : String) : CandidateCard :=
  { name := basicLandName color
    colors := []
    color_identity := if color = "C" then [] else [color]
    mana_value := 0
    rarity := "common"
    basic_types := ["Land"]
    sub_types := []
    super_types := ["Basic"]
    keywords := []
    oracle_text := ""
    legalities := []
    owned_qty := 0 }

/-- A land's text matches one of the `avoid` keywords (case-insensitive
substring, section 4.5). -/
def avoidHit (avoid : List String) (c : CandidateCard) : Bool :=
  avoid.any (fun a => containsCI c.oracle_text a)

/-- The number of `prefer` keywords a land's text matches (section 4.5). -/
def preferCount (prefer : List String) (c : CandidateCard) : Nat :=
  (prefer.map (fun p => if containsCI c.oracle_text p then 1 else 0)).sum

/-- Modelled from the spec: pick the special lands (section 4.5): non-basic
lands with room under the cap, minus any land matching an `avoid` keyword,
scored by the count of `prefer` matches descending, top
`special_lands.count` (never more than `land_count`). -/
def specialChoices (maxCopies : Nat) (mb : ManaBaseConfig)
    (pool : List CandidateCard) (deck : List DeckCard) : List CandidateCard :=
  let lands := pool.filter (fun c =>
    isLandCard c && !isBasicLand c && !avoidHit mb.special_lands.avoid c
      && decide (countName deck c.name < maxCopies))
  let sorted := sortBy (candLE (fun c => (preferCount mb.special_lands.prefer c : Int)))
    (dedupByName [] lands)
  sorted.take (min mb.special_lands.count mb.land_count)

/-- The mana-symbol weight of a color: the total quantity of the selected
non-land cards showing that color (the card's `colors` stand in for the
mana symbols of its cost, which `CandidateCard` does not carry). -/
def pipWeight (deck : List DeckCard) (color : String) : Nat :=
  (deck.map (fun d =>
    if !isLandCard d.card && d.card.colors.contains color then d.qty else 0)).sum

/-- Add `q` to every slot and one extra to each of the first `m` slots. -/
def bumpEach (q : Nat) : Nat → List Nat → List Nat
  | _, [] => []
  | 0, x :: xs => (x + q) :: bumpEach q 0 xs
  | m + 1, x :: xs => (x + q + 1) :: bumpEach q m xs

/-- Distribute a remainder over the slots in list order (cyclically when it
exceeds the number of slots). -/
def spreadRemainder (l : List Nat) (r : Nat) : List Nat :=
  bumpEach (r / l.length) (r % l.length) l

/-- Modelled from the spec: apportion `t` basic-land slots across the
colors by relative weight: round down, then distribute the remainder in
color-list order (section 4.5). -/
def apportion (t : Nat) (ws : List Nat) : List Nat :=
  let base := ws.map (fun w => t * w / ws.sum)
  spreadRemainder base (t - base.sum)

/-- Modelled from the spec: the basic-land assignment (section 4.5):
weights are the mana-symbol frequencies of the already-selected spells when
`balance.adjust_by_mana_symbols` is true, and an even split otherwise. -/
def basicAssignment (adjust : Bool) (colors : List String)
    (deck : List DeckCard) (t : Nat) : List (String × Nat) :=
  let ws := if adjust then colors.map (pipWeight deck) else colors.map (fun _ => 1)
  colors.zip (apportion t ws)

/-- The Mana Base Builder's selection: the chosen special lands (one copy
each) and the per-color basic-land quantities. -/
structure ManaPlan where
  specials : List CandidateCard
  basics : List (String × Nat)
deriving Repr

/-- Modelled from the spec: the Mana Base Builder's selection (section 4.5):
`land_count` total lands, special lands first, the remaining
`land_count - selected_special` slots apportioned as basic lands. -/
def manaBasePlan (maxCopies : Nat) (colors : List String) (mb : ManaBaseConfig)
    (pool : List CandidateCard) (deck : List DeckCard) : ManaPlan :=
  let specs := specialChoices maxCopies mb pool deck
  ⟨specs,
   basicAssignment mb.balance.adjust_by_mana_symbols colors deck
     (mb.land_count - specs.length)⟩

/-- Modelled from the spec: apply the mana-base selection to the deck; a
special-land shortfall against `special_lands.count` is recorded as a
non-fatal `unmet_conditions` entry (`ManaBaseShortfall`, section 7). -/
def manaBaseStage (maxCopies : Nat) (colors : List String) (mb : ManaBaseConfig)
    (pool : List CandidateCard) (deck : List DeckCard) : StageOut :=
  let plan := manaBasePlan maxCopies colors mb pool deck
  let items :=
    plan.specials.map (fun c => AddItem.mk c 1 ["special land"] 0)
      ++ plan.basics.map (fun p => AddItem.mk (basicLandFor p.1) p.2 ["basic land"] 0)
  ⟨applyAdds maxCopies deck items,
   if plan.specials.length < mb.special_lands.count then
     ["mana base: only " ++ toString plan.specials.length
       ++ " special lands of " ++ toString mb.special_lands.count]
   else []⟩

/-! ### Fallback filling (spec section 4.6) and assembly (4.7, 7) -/

/-- Modelled from the spec: the Fallback Filler (section 4.6): when the deck
is below `deck.size` and `fill_with_any` is set, draw further legal,
color-compatible candidates ranked by engine score until the gap closes or
the pool is exhausted; a remaining gap is recorded as a non-fatal
`unmet_conditions` entry (`FallbackExhausted`).  (The `fill_priority`
ordering between category buckets is not modelled; candidates are ranked
by score.) -/
def fallbackStage (sc : CandidateCard → Int) (spell : CandidateCard → Bool)
    (maxCopies : Nat) (ownedOnly : Bool) (size : Nat) (fb : FallbackStrategy)
    (pool : List CandidateCard) (deck : List DeckCard) : StageOut :=
  let gap := size - totalQty deck
  let items :=
    if fb.fill_with_any && decide (0 < gap) then
      pickItems ownedOnly maxCopies deck "fallback" sc gap
        (sortBy (candLE sc)
          (dedupByName []
            (pool.filter (fun c =>
              spell c && decide (countName deck c.name < maxCopies)))))
    else []
  let deck1 := applyAdds maxCopies deck items
  let gap1 := size - totalQty deck1
  ⟨deck1, if 0 < gap1 then ["fallback: deck short by " ++ toString gap1] else []⟩

/-- The full pipeline state returned to the assembler. -/
structure PipeOut where
  deck : List DeckCard
  unmets : List String
  summary : List CategorySummary
  ops : List String
deriving Repr

/-- Modelled from the spec: the fixed stage order of the Deck Assembler
(section 4.7): priority injection, category selection (targets scaled per
the section 4.4 policy), mana base, fallback filling, threading one
context. -/
def runPipeline (sc : CandidateCard → Int) (mode : ColorMatchMode)
    (allowColorless : Bool) (colors legalities excludeKws : List String)
    (size maxCopies : Nat) (ownedOnly : Bool) (cats : List DeckCategory)
    (pcs : List PriorityCard) (mb : ManaBaseConfig) (fb : FallbackStrategy)
    (pool : List CandidateCard) : PipeOut :=
  let elig := fun c => isLegalFor legalities c && colorOk mode allowColorless colors c
  let spell := fun c =>
    spellEligible mode allowColorless colors legalities excludeKws ownedOnly c
  let pr := priorityStage sc ownedOnly maxCopies elig pool pcs []
  let co := categoriesStage sc spell maxCopies ownedOnly pool
    (scaleTargets size mb.land_count cats) pr.deck
  let mo := manaBaseStage maxCopies colors mb pool co.deck
  let fo := fallbackStage sc spell maxCopies ownedOnly size fb pool mo.deck
  ⟨fo.deck, pr.unmets ++ co.unmets ++ mo.unmets ++ fo.unmets, co.summary,
   ["priority injection", "category selection", "mana base", "fallback fill"]⟩

/-- Modelled from the spec: fatal configuration validation (sections 4.1
and 3): required `deck.name` and `deck.colors`, and the `DeckConfig`
invariants `size > 0`, `max_card_copies >= 1`. -/
def validConfig (name : String) (colors : List String) (size maxCopies : Nat) : Bool :=
  !(name = "") && !colors.isEmpty && decide (0 < size) && decide (0 < maxCopies)

/-- Modelled from the spec: `min_score_to_flag` only marks a card as
notable in its `reasons` (section 4.2). -/
def flagNotables (minFlag : Int) (deck : List DeckCard) : List DeckCard :=
  deck.map (fun d =>
    if minFlag ≤ d.score then { d with reasons := d.reasons ++ ["notable"] } else d)

/-- Modelled from the spec: final assembly (sections 4.6-4.7 and 7): an
invalid configuration is fatal before any selection; shortfalls escalate to
a fatal `BuildFailure` exactly when `allow_less_than_target` is false and
the deck is short of `deck.size`; otherwise the deck is returned with its
imperfections in `unmet_conditions`. -/
def assembleResult (valid : Bool) (po : PipeOut) (size : Nat)
    (allowLess : Bool) (minFlag : Int) : Except BuildError BuildResult :=
  if valid then
    let ctx : BuildContext := ⟨po.ops, po.unmets, po.summary⟩
    if totalQty po.deck < size && !allowLess then .error (.buildFailure ctx)
    else .ok ⟨flagNotables minFlag po.deck, ctx⟩
  else .error (.configError "invalid configuration")

/-- The pipeline output of a build, as a function of the three inputs. -/
def pipelineOf (cfg : DeckConfig) (pool : List CandidateCard)
    (own : List (String × Nat)) : PipeOut :=
  runPipeline (fun c => score c cfg.scoring_rules) cfg.color_match_mode
    cfg.allow_colorless cfg.colors cfg.legalities
    cfg.card_constraints.exclude_keywords cfg.size cfg.max_card_copies
    cfg.owned_cards_only cfg.categories cfg.priority_cards cfg.mana_base
    cfg.fallback_strategy (applyOwnership pool own)

/-- Modelled from the spec: the single build entry point (section 6): a
pure function of `(config, pool snapshot, ownership snapshot)`. -/
def buildDeck (cfg : DeckConfig) (pool : List CandidateCard)
    (own : List (String × Nat)) : Except BuildError BuildResult :=
  assembleResult (validConfig cfg.name cfg.colors cfg.size cfg.max_card_copies)
    (pipelineOf cfg pool own) cfg.size cfg.fallback_strategy.allow_less_than_target
    cfg.scoring_rules.min_score_to_flag

/-- The name/quantity projection of a deck (what the deck contains,
forgetting the explanatory `reasons` and scores). -/
def deckQtys (deck : List DeckCard) : List (String × Nat) :=
  deck.map (fun d => (d.card.name, d.qty))

/-- The name/quantity projection of a build outcome. -/
def resultQtys : Except BuildError BuildResult → Option (List (String × Nat))
  | .error _ => none
  | .ok r => some (deckQtys r.decklist)

/-! ## DeckViewer persistence (frontend source `saveDeck` / `loadDeck`)

`saveDeck` writes `JSON.stringify({ decklist, arena, analysis }, null, 2)`;
`loadDeck` parses the text and reads `parsed.decklist || []` (kept only when
it is an array), `parsed.arena` and `parsed.analysis`.  The round trip is
stated on parsed JSON values ("up to JSON serialization"). -/

/-- JSON values, the image of `JSON.parse`. -/
inductive Json where
  | null : Json
  | bool (b : Bool) : Json
  | num (n : Int) : Json
  | str (s : String) : Json
  | arr (xs : List Json) : Json
  | obj (fields : List (String × Json)) : Json
deriving Repr

/-- Field lookup in a JSON object field list (first match, as in JS). -/
def lookupField : List (String × Json) → String → Option Json
  | [], _ => none
  | (k, v) :: rest, key => if k = key then some v else lookupField rest key

/-- Property access `obj.key`: `undefined` (here `none`) unless the value is an object
with that key. -/
def getField : Json → String → Option Json
  | .obj fs, key => lookupField fs key
  | _, _ => none

/-- JS falsiness of a JSON value (`undefined` is handled by the callers). -/
def falsyJson : Json → Bool
  | .null => true
  | .bool b => !b
  | .num n => n == 0
  | .str s => s == ""
  | _ => false

/-- A decklist row as serialized by the viewer (the required columns). -/
structure ViewRow where
  qty : Int
  name : String
  type : String
  mv : Int
deriving Repr, DecidableEq

/-- JSON encoding of a decklist row (`JSON.stringify` of the row object). -/
def encodeRow (r : ViewRow) : Json :=
  .obj [("qty", .num r.qty), ("name", .str r.name),
        ("type", .str r.type), ("mv", .num r.mv)]

/-- Semantic inverse of `encodeRow`: read the row fields back out of a JSON
value. -/
def decodeRow (j : Json) : Option ViewRow :=
  match getField j "qty", getField j "name", getField j "type", getField j "mv" with
  | some (.num q), some (.str n), some (.str t), some (.num m) => some ⟨q, n, t, m⟩
  | _, _, _, _ => none

/-- A key/value pair that `JSON.stringify` drops when the value is
`undefined` (modelled by `none`). -/
def optField (key : String) : Option Json → List (String × Json)
  | none => []
  | some v => [(key, v)]

/-- The `saveDeck` function from `DeckViewer.tsx`: the saved record
`{ decklist: localDeck, arena: localArena, analysis: localAnalysis }`
(`undefined` arena/analysis keys are omitted by `JSON.stringify`). -/
def saveDeck (rows : List ViewRow) (arena : Option String) (analysis : Option Json) : Json :=
  .obj ([("decklist", .arr (rows.map encodeRow))]
        ++ optField "arena" (arena.map .str)
        ++ optField "analysis" analysis)

/-- The `loadDeck` function from `DeckViewer.tsx` applied to the parsed file: the rows it
installs (`parsed.decklist || []`, only when an array — `none` means the
deck is left untouched), plus `parsed.arena` and `parsed.analysis`. -/
def loadDeck (j : Json) : Option (List Json) × Option Json × Option Json :=
  let rows : Option (List Json) :=
    match getField j "decklist" with
    | some (.arr xs) => some xs
    | some v => if falsyJson v then some [] else none
    | none => some []
  (rows, getField j "arena", getField j "analysis")

/-! ## DeckAnalysis mana curve (frontend source `mvCounts`, fallback branch)

When no precomputed `analysis.mana_curve` is given, the component folds the
decklist: land rows with rounded mana value 0 are skipped, every other row
adds its `qty` to the bucket `min(7, max(0, mv))`.  Mana values appear here
already rounded to integers (`Math.round` on the row's number). -/

/-- The land test `String(r.type).toLowerCase().includes('land')`. -/
def isLandType (t : String) : Bool := containsCI t "land"

/-- The clamped histogram bucket `Math.min(7, Math.max(0, mvNum))`. -/
def mvBucket (mv : Int) : Nat := (min 7 (max 0 mv)).toNat

/-- One row of the `decklist` prop of `DeckAnalysis` (the fields the mana
curve reads). -/
structure CurveRow where
  qty : Int
  type : String
  mv : Int
deriving Repr, DecidableEq

/-- A row is skipped by the curve exactly when it is a land with mana value
0 (`if (isLand && mvNum === 0) continue`). -/
def curveSkip (r : CurveRow) : Bool := isLandType r.type && r.mv == 0

/-- The fallback `mvCounts` map of `DeckAnalysis`: fold the rows, adding
`r.qty` to bucket `mvBucket r.mv` unless the row is a zero-mana land. -/
def mvCounts (rows : List CurveRow) : Nat → Int :=
  rows.foldl
    (fun f r =>
      if curveSkip r then f
      else fun b => if b = mvBucket r.mv then f b + r.qty else f b)
    (fun _ => 0)

/-- The per-bucket characterization the claim states: the total `qty` of the
non-skipped rows whose clamped mana value is `b`. -/
def curveSpecCount (rows : List CurveRow) (b : Nat) : Int :=
  (rows.map (fun r => if curveSkip r = false ∧ mvBucket r.mv = b then r.qty else 0)).sum

/-- The copy-cap invariant: every name all of whose deck entries are
non-basic cards totals at most `max_card_copies`. -/
def CapInv (maxCopies : Nat) (deck : List DeckCard) : Prop :=
  ∀ n : String,
    (∀ d ∈ deck, d.card.name = n → isBasicLand d.card = false) →
    countName deck n ≤ maxCopies

/-! ## Concrete example builds (used to instantiate the theorems) -/

/-- A scoring-rule set with empty tables. -/
def emptyScoring : ScoringRules := ⟨[], [], [], [], ⟨[], [], []⟩, [], ⟨4, 1⟩, 5⟩

/-- A small red instant. -/
def boltCard : CandidateCard :=
  ⟨"Bolt", ["R"], ["R"], 1, "common", ["Instant"], [], [], [],
   "deal damage", ["standard"], 0⟩

/-- A small red configuration with one priority card. -/
def boltConfig : DeckConfig :=
  { name := "burn"
    colors := ["R"]
    color_match_mode := .subsetMatch
    size := 4
    max_card_copies := 4
    allow_colorless := true
    legalities := []
    owned_cards_only := false
    categories := []
    card_constraints := ⟨[], []⟩
    priority_cards := [⟨"Bolt", 2⟩]
    scoring_rules := emptyScoring
    mana_base := ⟨2, ⟨0, [], []⟩, ⟨true⟩⟩
    fallback_strategy := ⟨true, [], true⟩ }

/-- The result of building `boltConfig` from the pool `[boltCard]`. -/
def boltResult : BuildResult :=
  match buildDeck boltConfig [boltCard] [] with
  | .ok r => r
  | .error _ => ⟨[], ⟨[], [], []⟩⟩

/-- A mono-green configuration whose basic-land count exceeds its copy
cap. -/
def monoGreenConfig : DeckConfig :=
  { name := "green"
    colors := ["G"]
    color_match_mode := .subsetMatch
    size := 4
    max_card_copies := 1
    allow_colorless := true
    legalities := []
    owned_cards_only := false
    categories := []
    card_constraints := ⟨[], []⟩
    priority_cards := []
    scoring_rules := emptyScoring
    mana_base := ⟨3, ⟨0, [], []⟩, ⟨true⟩⟩
    fallback_strategy := ⟨true, [], true⟩ }

/-- The result of building `monoGreenConfig` from an empty pool. -/
def monoGreenResult : BuildResult :=
  match buildDeck monoGreenConfig [] [] with
  | .ok r => r
  | .error _ => ⟨[], ⟨[], [], []⟩⟩

end MTGDeckBuilder

namespace MTGDeckBuilder

/-! ## Generic list lemmas -/

/-- Folding an accumulate-if step equals the starting value plus the sum of
the selected contributions. -/
theorem foldl_add_if {α : Type} (cond : α → Prop) [DecidablePred cond] (f : α → Int) :
    ∀ (l : List α) (init : Int),
      l.foldl (fun acc p => if cond p then acc + f p else acc) init
        = init + (l.map (fun p => if cond p then f p else 0)).sum := by
  intro l
  induction l with
  | nil => intro init; simp
  | cons a l ih =>
      intro init
      by_cases h : cond a
      · simp [h, ih]; ring
      · simp [h, ih]

/-! ## Theorems for the frontend claims C7 and C10 -/

/-- C7: configuration normalization applies the defaults `size=60`,
`max_card_copies=4` and `land_count=24` exactly when the raw configuration
omits those fields, leaves supplied values unchanged, and the initial form
state of the frontend carries the same defaults. -/
theorem config_defaults_applied :
    (∀ raw : RawConfig,
      (raw.deck.size = none → (loadSelectedConfig raw).deck.size = 60) ∧
      (raw.deck.max_card_copies = none →
        (loadSelectedConfig raw).deck.max_card_copies = 4) ∧
      (raw.mana_base_land_count = none →
        (loadSelectedConfig raw).mana_base_land_count = 24) ∧
      (∀ v, raw.deck.size = some v → (loadSelectedConfig raw).deck.size = v) ∧
      (∀ v, raw.deck.max_card_copies = some v →
        (loadSelectedConfig raw).deck.max_card_copies = v) ∧
      (∀ v, raw.mana_base_land_count = some v →
        (loadSelectedConfig raw).mana_base_land_count = v)) ∧
    initialForm.deck.size = 60 ∧ initialForm.deck.max_card_copies = 4 ∧
    initialForm.mana_base_land_count = 24 := by
  refine ⟨fun raw => ⟨?_, ?_, ?_, ?_, ?_, ?_⟩, rfl, rfl, rfl⟩ <;>
    simp +contextual [loadSelectedConfig]

/-- C7 witness: the theorem applied to a raw configuration that omits `size`
and `land_count` but supplies `max_card_copies = 1`. -/
theorem config_defaults_applied_witness :
    (loadSelectedConfig
        ⟨⟨some "d", some ["W"], none, some 1, none⟩, none⟩).deck.size = 60 ∧
    (loadSelectedConfig
        ⟨⟨some "d", some ["W"], none, some 1, none⟩, none⟩).deck.max_card_copies = 1 ∧
    (loadSelectedConfig
        ⟨⟨some "d", some ["W"], none, some 1, none⟩, none⟩).mana_base_land_count = 24 :=
  ⟨(config_defaults_applied.1 _).1 rfl,
   ((config_defaults_applied.1 _).2.2.2.2.1 1 rfl),
   ((config_defaults_applied.1 _).2.2.1 rfl)⟩

/-- C10: the color picker's toggle is an involution on the selected-color
set: it inserts an absent code, removes a present one, and toggling the same
code twice restores the original selection. -/
theorem toggle_involution :
    ∀ (value : List String) (code : String),
      (code ∉ selectedOf value →
        toggleColor (selectedOf value) code = insert code (selectedOf value)) ∧
      (code ∈ selectedOf value →
        toggleColor (selectedOf value) code = (selectedOf value).erase code) ∧
      toggleColor (toggleColor (selectedOf value) code) code = selectedOf value := by
  intro value code
  refine ⟨fun h => by simp [toggleColor, h], fun h => by simp [toggleColor, h], ?_⟩
  by_cases h : code ∈ selectedOf value
  · have h2 : code ∉ (selectedOf value).erase code := Finset.not_mem_erase _ _
    simp [toggleColor, h, h2, Finset.insert_erase h]
  · have h2 : code ∈ insert code (selectedOf value) := Finset.mem_insert_self _ _
    simp [toggleColor, h, h2, Finset.erase_insert h]

/-- C10 witness: toggling `"U"` on the selection `["w"]` (normalized to
`{"W"}`) twice restores `{"W"}`. -/
theorem toggle_involution_witness :
    toggleColor (toggleColor (selectedOf ["w"]) "U") "U" = selectedOf ["w"] :=
  (toggle_involution ["w"] "U").2.2

/-! ## Theorems for the frontend claims C8 and C9 -/

/-- Decoding a serialized decklist row restores the row. -/
theorem decodeRow_encodeRow (r : ViewRow) : decodeRow (encodeRow r) = some r := rfl

/-- C8: the deck persistence format round-trips.  Saving writes exactly the
record `{decklist, arena, analysis}`; loading the saved value restores the
same decklist rows (their JSON encodings decode back to the originals), the
same arena string and the same analysis object. -/
theorem save_load_roundtrip :
    ∀ (rows : List ViewRow) (arena : Option String) (analysis : Option Json),
      saveDeck rows arena analysis
        = .obj ([("decklist", .arr (rows.map encodeRow))]
            ++ optField "arena" (arena.map .str) ++ optField "analysis" analysis) ∧
      (loadDeck (saveDeck rows arena analysis)).1 = some (rows.map encodeRow) ∧
      (loadDeck (saveDeck rows arena analysis)).2.1 = arena.map Json.str ∧
      (loadDeck (saveDeck rows arena analysis)).2.2 = analysis ∧
      (rows.map encodeRow).map decodeRow = rows.map some := by
  intro rows arena analysis
  refine ⟨rfl, ?_, ?_, ?_, ?_⟩
  · cases arena <;> cases analysis <;>
      simp [saveDeck, loadDeck, optField, getField, lookupField]
  · cases arena <;> cases analysis <;>
      simp [saveDeck, loadDeck, optField, getField, lookupField]
  · cases arena <;> cases analysis <;>
      simp [saveDeck, loadDeck, optField, getField, lookupField]
  · simp [List.map_map, Function.comp_def, decodeRow_encodeRow]

/-- Every clamped bucket lies in `{0,...,7}`. -/
theorem mvBucket_lt (mv : Int) : mvBucket mv < 8 := by
  unfold mvBucket; omega

/-- The fold inside `mvCounts`, evaluated against an arbitrary accumulator. -/
theorem mvCounts_aux :
    ∀ (rows : List CurveRow) (f : Nat → Int) (b : Nat),
      (rows.foldl
        (fun f r =>
          if curveSkip r then f
          else fun b => if b = mvBucket r.mv then f b + r.qty else f b) f) b
        = f b + curveSpecCount rows b := by
  intro rows
  induction rows with
  | nil => intro f b; simp [curveSpecCount]
  | cons r rest ih =>
      intro f b
      simp only [List.foldl_cons]
      rw [ih]
      have hspec : curveSpecCount (r :: rest) b
          = (if curveSkip r = false ∧ mvBucket r.mv = b then r.qty else 0)
            + curveSpecCount rest b := by
        simp [curveSpecCount]
      rw [hspec]
      by_cases h : curveSkip r
      · simp [h]
      · by_cases hb : b = mvBucket r.mv
        · simp [h, hb]
          ring
        · simp [h, hb, Ne.symm hb]

/-- C9: the fallback mana curve adds each row's `qty` to the bucket given by
clamping its (already rounded) mana value into `{0,...,7}`, skipping exactly
the zero-mana land rows; consequently the buckets sum to the total quantity
minus the quantity of zero-mana land rows. -/
theorem mana_curve_counts :
    ∀ rows : List CurveRow,
      (∀ b, mvCounts rows b = curveSpecCount rows b) ∧
      (∑ b ∈ Finset.range 8, mvCounts rows b)
        = (rows.map (fun r => r.qty)).sum
          - ((rows.filter curveSkip).map (fun r => r.qty)).sum := by
  intro rows
  have hchar : ∀ b, mvCounts rows b = curveSpecCount rows b := by
    intro b
    have := mvCounts_aux rows (fun _ => 0) b
    simpa [mvCounts] using this
  refine ⟨hchar, ?_⟩
  have hsum : ∀ rs : List CurveRow,
      (∑ b ∈ Finset.range 8, curveSpecCount rs b)
        = (rs.map (fun r => r.qty)).sum
          - ((rs.filter curveSkip).map (fun r => r.qty)).sum := by
    intro rs
    induction rs with
    | nil => simp [curveSpecCount]
    | cons r rest ih =>
        have hstep : ∀ b, curveSpecCount (r :: rest) b
            = (if curveSkip r = false ∧ mvBucket r.mv = b then r.qty else 0)
              + curveSpecCount rest b := by
          intro b; simp [curveSpecCount]
        rw [Finset.sum_congr rfl (fun b _ => hstep b), Finset.sum_add_distrib, ih]
        by_cases h : curveSkip r
        · have hz : (∑ b ∈ Finset.range 8,
              if curveSkip r = false ∧ mvBucket r.mv = b then r.qty else 0) = 0 := by
            simp [h]
          have hf : List.filter curveSkip (r :: rest) = r :: List.filter curveSkip rest := by
            simp [List.filter_cons, h]
          rw [hz, hf]
          simp only [List.map_cons, List.sum_cons]
          omega
        · have hb : curveSkip r = false := by simpa using h
          have hq : (∑ b ∈ Finset.range 8,
              if curveSkip r = false ∧ mvBucket r.mv = b then r.qty else 0) = r.qty := by
            calc (∑ b ∈ Finset.range 8,
                  if curveSkip r = false ∧ mvBucket r.mv = b then r.qty else 0)
                = ∑ b ∈ Finset.range 8, if mvBucket r.mv = b then r.qty else 0 := by
                  exact Finset.sum_congr rfl fun b _ => by simp [hb]
              _ = r.qty := by
                  rw [Finset.sum_ite_eq (Finset.range 8) (mvBucket r.mv) fun _ => r.qty]
                  simp [Finset.mem_range.mpr (mvBucket_lt r.mv)]
          have hf : List.filter curveSkip (r :: rest) = List.filter curveSkip rest := by
            simp [List.filter_cons, hb]
          rw [hq, hf]
          simp only [List.map_cons, List.sum_cons]
          omega
  rw [Finset.sum_congr rfl (fun b _ => hchar b), hsum]

/-! ## Scoring engine (claim C4) -/

/-- The field `min_score_to_flag` is not an input of the score. -/
theorem score_flagFree (card : CandidateCard) (rules : ScoringRules) (m : Int) :
    score card { rules with min_score_to_flag := m } = score card rules := rfl

/-- The name/quantity projection ignores the notability marking. -/
theorem deckQtys_flagNotables (m : Int) (deck : List DeckCard) :
    deckQtys (flagNotables m deck) = deckQtys deck := by
  unfold deckQtys flagNotables
  rw [List.map_map]
  refine List.map_congr_left fun d _ => ?_
  by_cases h : m ≤ d.score <;> simp [h]

/-- The name/quantity projection of the assembled result does not depend on
the notability threshold. -/
theorem assembleResult_flagFree (v : Bool) (po : PipeOut) (size : Nat)
    (allowLess : Bool) (m₁ m₂ : Int) :
    resultQtys (assembleResult v po size allowLess m₁)
      = resultQtys (assembleResult v po size allowLess m₂) := by
  cases v
  · rfl
  · by_cases h : (totalQty po.deck < size && !allowLess) = true <;>
      simp [assembleResult, h, resultQtys, deckQtys_flagNotables]

/-- C4: the score of a card is the purely additive sum of the keyword-table
bonuses, text-match bonuses, type bonuses and rarity bonus, minus
`penalty_per_point * (mana_value - threshold)` exactly when the mana value
exceeds the threshold; and `min_score_to_flag` never changes which cards
(and quantities) a build selects — it only marks reasons. -/
theorem score_additive_and_flag_only_marks :
    (∀ (card : CandidateCard) (rules : ScoringRules),
      score card rules
        = tableBonus rules.keyword_abilities card.keywords
          + tableBonus rules.keyword_actions card.keywords
          + tableBonus rules.ability_words card.keywords
          + textBonus rules.text_matches card.oracle_text
          + tableBonus rules.type_bonus.basic_types card.basic_types
          + tableBonus rules.type_bonus.sub_types card.sub_types
          + tableBonus rules.type_bonus.super_types card.super_types
          + rarityBonusOf rules.rarity_bonus card.rarity
          - manaPenaltyOf rules.mana_penalty card.mana_value) ∧
    (∀ (cfg : DeckConfig) (pool : List CandidateCard) (own : List (String × Nat))
        (m : Int),
      resultQtys (buildDeck
          { cfg with scoring_rules := { cfg.scoring_rules with min_score_to_flag := m } }
          pool own)
        = resultQtys (buildDeck cfg pool own)) := by
  constructor
  · intro card rules
    unfold score tableBonus textBonus rarityBonusOf manaPenaltyOf
    simp only [foldl_add_if]
    by_cases h : card.mana_value > rules.mana_penalty.threshold <;> simp [h]
  · intro cfg pool own m
    have h1 : buildDeck
        { cfg with scoring_rules := { cfg.scoring_rules with min_score_to_flag := m } }
        pool own
        = assembleResult (validConfig cfg.name cfg.colors cfg.size cfg.max_card_copies)
            (pipelineOf cfg pool own) cfg.size
            cfg.fallback_strategy.allow_less_than_target m := rfl
    have h2 : buildDeck cfg pool own
        = assembleResult (validConfig cfg.name cfg.colors cfg.size cfg.max_card_copies)
            (pipelineOf cfg pool own) cfg.size
            cfg.fallback_strategy.allow_less_than_target
            cfg.scoring_rules.min_score_to_flag := rfl
    rw [h1, h2]
    exact assembleResult_flagFree _ _ _ _ _ _

/-! ## Copy-cap invariant (claim C1) -/

theorem capInv_nil (maxCopies : Nat) : CapInv maxCopies [] := by
  intro n _
  simp [countName]

theorem countName_append_one (deck : List DeckCard) (e : DeckCard) (n : String) :
    countName (deck ++ [e]) n
      = countName deck n + (if e.card.name = n then e.qty else 0) := by
  simp [countName]

/-- The operation `addCard` preserves the copy-cap invariant: non-basic additions are
clipped to the remaining room, basic lands void the premise for their
name. -/
theorem capInv_addCard {maxCopies : Nat} {deck : List DeckCard}
    (h : CapInv maxCopies deck) (c : CandidateCard) (want : Nat)
    (rs : List String) (sv : Int) :
    CapInv maxCopies (addCard maxCopies deck c want rs sv) := by
  unfold addCard
  by_cases hb : isBasicLand c = true
  · by_cases hw : want = 0
    · simpa [hb, hw] using h
    · simp only [hb, if_true, hw, if_false]
      intro n hall
      have hcn : ¬ c.name = n := by
        intro heq
        have hmem : (⟨c, want, rs, sv⟩ : DeckCard) ∈ deck ++ [⟨c, want, rs, sv⟩] := by
          simp
        have := hall _ hmem heq
        rw [hb] at this
        cases this
      rw [countName_append_one]
      simp only [hcn, if_false, Nat.add_zero]
      exact h n (fun d hd hdn => hall d (List.mem_append_left _ hd) hdn)
  · by_cases ha : min want (maxCopies - countName deck c.name) = 0
    · simpa [hb, ha] using h
    · simp only [hb, Bool.false_eq_true, if_false, ha]
      intro n hall
      rw [countName_append_one]
      by_cases hcn : c.name = n
      · simp only [hcn, if_true]
        have hcur : countName deck n ≤ maxCopies :=
          h n (fun d hd hdn => hall d (List.mem_append_left _ hd) hdn)
        rcases Nat.le_total want (maxCopies - countName deck n) with hle | hle
        · rw [Nat.min_eq_left hle]
          omega
        · rw [Nat.min_eq_right hle]
          omega
      · simp only [hcn, if_false, Nat.add_zero]
        exact h n (fun d hd hdn => hall d (List.mem_append_left _ hd) hdn)

theorem capInv_applyAdds {maxCopies : Nat} (items : List AddItem) :
    ∀ {deck : List DeckCard}, CapInv maxCopies deck →
      CapInv maxCopies (applyAdds maxCopies deck items) := by
  induction items with
  | nil => intro deck h; exact h
  | cons it rest ih =>
      intro deck h
      have : applyAdds maxCopies deck (it :: rest)
          = applyAdds maxCopies (addCard maxCopies deck it.card it.want it.reasons it.sv) rest := by
        simp [applyAdds]
      rw [this]
      exact ih (capInv_addCard h _ _ _ _)

theorem capInv_priorityStage (sc : CandidateCard → Int) (ownedOnly : Bool)
    (maxCopies : Nat) (elig : CandidateCard → Bool) (pool : List CandidateCard) :
    ∀ (pcs : List PriorityCard) {deck : List DeckCard}, CapInv maxCopies deck →
      CapInv maxCopies (priorityStage sc ownedOnly maxCopies elig pool pcs deck).deck := by
  intro pcs
  induction pcs with
  | nil => intro deck h; exact h
  | cons pc rest ih =>
      intro deck h
      cases hf : findByName pool pc.name with
      | none =>
          simp only [priorityStage, hf]
          exact ih h
      | some c =>
          by_cases he : elig c = true
          · simp only [priorityStage, hf, he, if_true]
            exact ih (capInv_addCard h _ _ _ _)
          · simp only [priorityStage, hf, he, if_false]
            exact ih h

theorem capInv_categoriesStage (sc : CandidateCard → Int)
    (spell : CandidateCard → Bool) (maxCopies : Nat) (ownedOnly : Bool)
    (pool : List CandidateCard) :
    ∀ (cats : List DeckCategory) {deck : List DeckCard}, CapInv maxCopies deck →
      CapInv maxCopies (categoriesStage sc spell maxCopies ownedOnly pool cats deck).deck := by
  intro cats
  induction cats with
  | nil => intro deck h; exact h
  | cons cat rest ih =>
      intro deck h
      simp only [categoriesStage]
      exact ih (capInv_applyAdds _ h)

theorem capInv_manaBaseStage (maxCopies : Nat) (colors : List String)
    (mb : ManaBaseConfig) (pool : List CandidateCard) {deck : List DeckCard}
    (h : CapInv maxCopies deck) :
    CapInv maxCopies (manaBaseStage maxCopies colors mb pool deck).deck := by
  unfold manaBaseStage
  exact capInv_applyAdds _ h

theorem capInv_fallbackStage (sc : CandidateCard → Int)
    (spell : CandidateCard → Bool) (maxCopies : Nat) (ownedOnly : Bool)
    (size : Nat) (fb : FallbackStrategy) (pool : List CandidateCard)
    {deck : List DeckCard} (h : CapInv maxCopies deck) :
    CapInv maxCopies (fallbackStage sc spell maxCopies ownedOnly size fb pool deck).deck := by
  unfold fallbackStage
  exact capInv_applyAdds _ h

theorem capInv_pipeline (cfg : DeckConfig) (pool : List CandidateCard)
    (own : List (String × Nat)) :
    CapInv cfg.max_card_copies (pipelineOf cfg pool own).deck := by
  unfold pipelineOf runPipeline
  exact capInv_fallbackStage _ _ _ _ _ _ _
    (capInv_manaBaseStage _ _ _ _
      (capInv_categoriesStage _ _ _ _ _ _
        (capInv_priorityStage _ _ _ _ _ _ (capInv_nil _))))

theorem flagEntry_card (m : Int) (d : DeckCard) :
    (if m ≤ d.score then { d with reasons := d.reasons ++ ["notable"] } else d).card
      = d.card := by
  split <;> rfl

theorem countName_flagNotables (m : Int) (deck : List DeckCard) (n : String) :
    countName (flagNotables m deck) n = countName deck n := by
  unfold countName flagNotables
  rw [List.map_map]
  refine congrArg List.sum (List.map_congr_left fun d _ => ?_)
  by_cases h : m ≤ d.score <;> simp [h]

theorem capInv_flagNotables {maxCopies : Nat} {deck : List DeckCard} (m : Int)
    (h : CapInv maxCopies deck) : CapInv maxCopies (flagNotables m deck) := by
  intro n hall
  rw [countName_flagNotables]
  apply h n
  intro d hd hdn
  have hmem : (if m ≤ d.score then { d with reasons := d.reasons ++ ["notable"] } else d)
      ∈ flagNotables m deck := List.mem_map_of_mem _ hd
  have := hall _ hmem (by rw [flagEntry_card]; exact hdn)
  rwa [flagEntry_card] at this

/-- A successful build's decklist is the pipeline deck with notability
markings applied. -/
theorem buildDeck_ok_decklist {cfg : DeckConfig} {pool : List CandidateCard}
    {own : List (String × Nat)} {r : BuildResult}
    (h : buildDeck cfg pool own = .ok r) :
    r.decklist = flagNotables cfg.scoring_rules.min_score_to_flag
      (pipelineOf cfg pool own).deck := by
  unfold buildDeck assembleResult at h
  by_cases hv : validConfig cfg.name cfg.colors cfg.size cfg.max_card_copies = true
  · simp only [hv, if_true] at h
    by_cases hs : (totalQty (pipelineOf cfg pool own).deck < cfg.size
        && !cfg.fallback_strategy.allow_less_than_target) = true
    · rw [if_pos hs] at h
      cases h
    · rw [if_neg hs] at h
      cases h
      rfl
  · rw [if_neg hv] at h
    cases h

/-- A successful build's context carries the pipeline's operations, unmet
conditions and category summary. -/
theorem buildDeck_ok_context {cfg : DeckConfig} {pool : List CandidateCard}
    {own : List (String × Nat)} {r : BuildResult}
    (h : buildDeck cfg pool own = .ok r) :
    r.build_context = ⟨(pipelineOf cfg pool own).ops,
      (pipelineOf cfg pool own).unmets, (pipelineOf cfg pool own).summary⟩ := by
  unfold buildDeck assembleResult at h
  by_cases hv : validConfig cfg.name cfg.colors cfg.size cfg.max_card_copies = true
  · simp only [hv, if_true] at h
    by_cases hs : (totalQty (pipelineOf cfg pool own).deck < cfg.size
        && !cfg.fallback_strategy.allow_less_than_target) = true
    · rw [if_pos hs] at h
      cases h
    · rw [if_neg hs] at h
      cases h
      rfl
  · rw [if_neg hv] at h
    cases h

/-- C1: in every completed build, every card name all of whose deck entries
are non-basic cards totals at most `max_card_copies` — through priority
injection, category selection, mana base and fallback alike — while basic
lands can exceed the cap. -/
theorem copy_cap_invariant :
    (∀ (cfg : DeckConfig) (pool : List CandidateCard) (own : List (String × Nat))
        (r : BuildResult),
      buildDeck cfg pool own = .ok r →
      ∀ n : String,
        (∀ d ∈ r.decklist, d.card.name = n → isBasicLand d.card = false) →
        countName r.decklist n ≤ cfg.max_card_copies) ∧
    (∃ (cfg : DeckConfig) (r : BuildResult),
      buildDeck cfg [] [] = .ok r ∧
      ∃ d ∈ r.decklist, isBasicLand d.card = true ∧
        cfg.max_card_copies < countName r.decklist d.card.name) := by
  constructor
  · intro cfg pool own r hok n hall
    rw [buildDeck_ok_decklist hok] at hall ⊢
    exact capInv_flagNotables _ (capInv_pipeline cfg pool own) n hall
  · refine ⟨monoGreenConfig, monoGreenResult, rfl, ?_⟩
    decide

/-- C1 witness: the cap theorem applied to the concrete burn build, at the
non-basic-land name `Bolt`. -/
theorem copy_cap_invariant_witness :
    countName boltResult.decklist "Bolt" ≤ boltConfig.max_card_copies :=
  copy_cap_invariant.1 boltConfig [boltCard] [] boltResult rfl "Bolt" (by decide)

/-! ## Mana-base land count (claim C2) -/

theorem bumpEach_sum (q : Nat) :
    ∀ (m : Nat) (l : List Nat),
      (bumpEach q m l).sum = l.sum + q * l.length + min m l.length := by
  intro m l
  induction l generalizing m with
  | nil => simp [bumpEach]
  | cons x xs ih =>
      cases m with
      | zero =>
          simp [bumpEach, ih 0]
          ring
      | succ m =>
          simp [bumpEach, ih m, Nat.succ_min_succ]
          ring

theorem bumpEach_length (q : Nat) :
    ∀ (m : Nat) (l : List Nat), (bumpEach q m l).length = l.length := by
  intro m l
  induction l generalizing m with
  | nil => simp [bumpEach]
  | cons x xs ih =>
      cases m with
      | zero => simp [bumpEach, ih 0]
      | succ m => simp [bumpEach, ih m]

theorem spreadRemainder_sum (l : List Nat) (r : Nat) (h : l ≠ []) :
    (spreadRemainder l r).sum = l.sum + r := by
  unfold spreadRemainder
  rw [bumpEach_sum]
  have hlen : 0 < l.length := List.length_pos.mpr h
  have hmod : r % l.length < l.length := Nat.mod_lt _ hlen
  rw [Nat.min_eq_left (Nat.le_of_lt hmod)]
  have hdm := Nat.div_add_mod r l.length
  rw [Nat.mul_comm l.length (r / l.length)] at hdm
  rw [Nat.add_assoc, hdm]

theorem spreadRemainder_length (l : List Nat) (r : Nat) :
    (spreadRemainder l r).length = l.length := by
  unfold spreadRemainder
  rw [bumpEach_length]

/-- The rounded-down shares never exceed the total. -/
theorem apportion_base_le (t : Nat) (ws : List Nat) :
    ((ws.map (fun w => t * w / ws.sum)).sum) ≤ t := by
  by_cases h : ws.sum = 0
  · have hz : ∀ x ∈ ws.map (fun w => t * w / ws.sum), x = 0 := by
      intro x hx
      rcases List.mem_map.mp hx with ⟨w, hw, rfl⟩
      have hw0 : w = 0 := by
        have := List.single_le_sum (fun a _ => Nat.zero_le a) w hw
        omega
      simp [hw0]
    rw [List.sum_eq_zero hz]
    exact Nat.zero_le t
  · have hpos : 0 < ws.sum := Nat.pos_of_ne_zero h
    have hmul : ((ws.map (fun w => t * w / ws.sum)).sum) * ws.sum ≤ t * ws.sum := by
      calc ((ws.map (fun w => t * w / ws.sum)).sum) * ws.sum
          = ((ws.map (fun w => t * w / ws.sum * ws.sum)).sum) := by
            rw [← List.sum_map_mul_right]
        _ ≤ ((ws.map (fun w => t * w)).sum) := by
            apply List.sum_le_sum
            intro w _
            exact Nat.div_mul_le_self _ _
        _ = t * ws.sum := by
            have hmm := List.sum_map_mul_left ws (fun w => w) t
            simpa using hmm
    exact Nat.le_of_mul_le_mul_right hmul hpos

/-- Apportioning `t` slots across a non-empty weight list distributes
exactly `t`. -/
theorem apportion_sum (t : Nat) (ws : List Nat) (h : ws ≠ []) :
    (apportion t ws).sum = t := by
  unfold apportion
  have hne : ws.map (fun w => t * w / ws.sum) ≠ [] := by
    simpa using h
  rw [spreadRemainder_sum _ _ hne]
  have := apportion_base_le t ws
  omega

theorem apportion_length (t : Nat) (ws : List Nat) :
    (apportion t ws).length = ws.length := by
  unfold apportion
  rw [spreadRemainder_length, List.length_map]

/-- C2: the special lands selected plus the basic lands selected by the
Mana Base Builder always total exactly `mana_base.land_count`, however many
special lands the pool can supply. -/
theorem mana_base_exact_land_count :
    ∀ (maxCopies : Nat) (colors : List String) (mb : ManaBaseConfig)
      (pool : List CandidateCard) (deck : List DeckCard),
      colors ≠ [] →
      (manaBasePlan maxCopies colors mb pool deck).specials.length
        + ((manaBasePlan maxCopies colors mb pool deck).basics.map
            (fun p => p.2)).sum
        = mb.land_count := by
  intro maxCopies colors mb pool deck hc
  unfold manaBasePlan basicAssignment
  set specs := specialChoices maxCopies mb pool deck with hspecs
  have hlen : specs.length ≤ mb.land_count := by
    rw [hspecs]
    unfold specialChoices
    calc (List.take (min mb.special_lands.count mb.land_count) _).length
        ≤ min mb.special_lands.count mb.land_count := List.length_take_le _ _
      _ ≤ mb.land_count := Nat.min_le_right _ _
  set ws := if mb.balance.adjust_by_mana_symbols then colors.map (pipWeight deck)
    else colors.map (fun _ => 1) with hws
  have hwlen : ws.length = colors.length := by
    rw [hws]
    by_cases hadj : mb.balance.adjust_by_mana_symbols = true <;> simp [hadj]
  have hwne : ws ≠ [] := by
    intro hnil
    apply hc
    have := congrArg List.length hnil
    rw [hwlen] at this
    exact List.length_eq_zero.mp this
  have hzip : (colors.zip (apportion (mb.land_count - specs.length) ws)).map
      (fun p => p.2) = apportion (mb.land_count - specs.length) ws := by
    apply List.map_snd_zip
    rw [apportion_length, hwlen]
  simp only [hzip]
  rw [apportion_sum _ _ hwne]
  omega

/-- C2 witness: the theorem applied to a one-color mana base of three
lands. -/
theorem mana_base_exact_land_count_witness :
    (manaBasePlan 4 ["G"] ⟨3, ⟨0, [], []⟩, ⟨true⟩⟩ [] []).specials.length
      + ((manaBasePlan 4 ["G"] ⟨3, ⟨0, [], []⟩, ⟨true⟩⟩ [] []).basics.map
          (fun p => p.2)).sum
      = 3 :=
  mana_base_exact_land_count 4 ["G"] ⟨3, ⟨0, [], []⟩, ⟨true⟩⟩ [] [] (by decide)

/-! ## Determinism of the entry point (claim C3) -/

/-- C3: the build entry point is a pure function of the configuration, the
card-pool snapshot and the ownership snapshot: runs on identical inputs
produce identical results (decklist and build context alike). -/
theorem build_deterministic :
    ∀ (cfg₁ cfg₂ : DeckConfig) (pool₁ pool₂ : List CandidateCard)
      (own₁ own₂ : List (String × Nat)),
      cfg₁ = cfg₂ → pool₁ = pool₂ → own₁ = own₂ →
      buildDeck cfg₁ pool₁ own₁ = buildDeck cfg₂ pool₂ own₂ := by
  intro cfg₁ cfg₂ pool₁ pool₂ own₁ own₂ h1 h2 h3
  rw [h1, h2, h3]

/-- C3 witness: two runs of the burn build coincide. -/
theorem build_deterministic_witness :
    buildDeck boltConfig [boltCard] [] = buildDeck boltConfig [boltCard] [] :=
  build_deterministic boltConfig boltConfig [boltCard] [boltCard] [] [] rfl rfl rfl

/-! ## Priority-card precedence (claim C5) -/

/-- A successful `findByName` returns a card with the requested name. -/
theorem findByName_name :
    ∀ (pool : List CandidateCard) (n : String) (c : CandidateCard),
      findByName pool n = some c → c.name = n := by
  intro pool
  induction pool with
  | nil => intro n c h; cases h
  | cons p rest ih =>
      intro n c h
      by_cases hp : p.name = n
      · rw [findByName, if_pos hp] at h
        cases h
        exact hp
      · rw [findByName, if_neg hp] at h
        exact ih n c h

/-- The operation `addCard` either leaves the deck unchanged or appends one entry for the
given card. -/
theorem addCard_shape (maxCopies : Nat) (deck : List DeckCard)
    (c : CandidateCard) (want : Nat) (rs : List String) (sv : Int) :
    addCard maxCopies deck c want rs sv = deck ∨
    ∃ q, addCard maxCopies deck c want rs sv = deck ++ [⟨c, q, rs, sv⟩] := by
  unfold addCard
  by_cases hb : isBasicLand c = true
  · by_cases hw : want = 0
    · simp only [hb, if_true, hw]
      exact Or.inl trivial
    · simp only [hb, if_true, hw, if_false]
      exact Or.inr ⟨want, rfl⟩
  · by_cases ha : min want (maxCopies - countName deck c.name) = 0
    · simp only [hb, Bool.false_eq_true, if_false, ha, if_true]
      exact Or.inl trivial
    · simp only [hb, Bool.false_eq_true, if_false, ha]
      exact Or.inr ⟨_, rfl⟩

/-- Adding never lowers a name's count. -/
theorem countName_addCard_mono (maxCopies : Nat) (deck : List DeckCard)
    (c : CandidateCard) (want : Nat) (rs : List String) (sv : Int) (n : String) :
    countName deck n ≤ countName (addCard maxCopies deck c want rs sv) n := by
  rcases addCard_shape maxCopies deck c want rs sv with h | ⟨q, h⟩
  · rw [h]
  · rw [h, countName_append_one]
    exact Nat.le_add_right _ _

theorem countName_applyAdds_mono (maxCopies : Nat) (items : List AddItem) :
    ∀ (deck : List DeckCard) (n : String),
      countName deck n ≤ countName (applyAdds maxCopies deck items) n := by
  induction items with
  | nil => intro deck n; exact Nat.le_refl _
  | cons it rest ih =>
      intro deck n
      have hstep : applyAdds maxCopies deck (it :: rest)
          = applyAdds maxCopies
              (addCard maxCopies deck it.card it.want it.reasons it.sv) rest := by
        simp [applyAdds]
      rw [hstep]
      exact Nat.le_trans (countName_addCard_mono _ _ _ _ _ _ _) (ih _ n)

theorem countName_priorityStage_mono (sc : CandidateCard → Int) (ownedOnly : Bool)
    (maxCopies : Nat) (elig : CandidateCard → Bool) (pool : List CandidateCard) :
    ∀ (pcs : List PriorityCard) (deck : List DeckCard) (n : String),
      countName deck n
        ≤ countName (priorityStage sc ownedOnly maxCopies elig pool pcs deck).deck n := by
  intro pcs
  induction pcs with
  | nil => intro deck n; exact Nat.le_refl _
  | cons pc rest ih =>
      intro deck n
      cases hf : findByName pool pc.name with
      | none =>
          simp only [priorityStage, hf]
          exact ih deck n
      | some c =>
          by_cases he : elig c = true
          · simp only [priorityStage, hf, he, if_true]
            exact Nat.le_trans (countName_addCard_mono _ _ _ _ _ _ _) (ih _ n)
          · simp only [priorityStage, hf, he, if_false]
            exact ih deck n

theorem countName_categoriesStage_mono (sc : CandidateCard → Int)
    (spell : CandidateCard → Bool) (maxCopies : Nat) (ownedOnly : Bool)
    (pool : List CandidateCard) :
    ∀ (cats : List DeckCategory) (deck : List DeckCard) (n : String),
      countName deck n
        ≤ countName (categoriesStage sc spell maxCopies ownedOnly pool cats deck).deck n := by
  intro cats
  induction cats with
  | nil => intro deck n; exact Nat.le_refl _
  | cons cat rest ih =>
      intro deck n
      simp only [categoriesStage]
      exact Nat.le_trans (countName_applyAdds_mono _ _ _ n) (ih _ n)

theorem countName_manaBaseStage_mono (maxCopies : Nat) (colors : List String)
    (mb : ManaBaseConfig) (pool : List CandidateCard) (deck : List DeckCard)
    (n : String) :
    countName deck n ≤ countName (manaBaseStage maxCopies colors mb pool deck).deck n := by
  unfold manaBaseStage
  exact countName_applyAdds_mono _ _ _ n

theorem countName_fallbackStage_mono (sc : CandidateCard → Int)
    (spell : CandidateCard → Bool) (maxCopies : Nat) (ownedOnly : Bool)
    (size : Nat) (fb : FallbackStrategy) (pool : List CandidateCard)
    (deck : List DeckCard) (n : String) :
    countName deck n
      ≤ countName (fallbackStage sc spell maxCopies ownedOnly size fb pool deck).deck n := by
  unfold fallbackStage
  exact countName_applyAdds_mono _ _ _ n

/-- The priority quantity never exceeds the copy cap. -/
theorem priorityWant_le_max (ownedOnly : Bool) (maxCopies : Nat)
    (pc : PriorityCard) (c : CandidateCard) :
    priorityWant ownedOnly maxCopies pc c ≤ maxCopies := by
  unfold priorityWant
  split_ifs
  · exact Nat.le_trans (Nat.min_le_left _ _) (Nat.min_le_right _ _)
  · exact Nat.min_le_right _ _

/-- Adding `want ≤ maxCopies` copies leaves the name's count at least
`want` (the count may already have been higher). -/
theorem addCard_count_ge (maxCopies : Nat) (deck : List DeckCard)
    (c : CandidateCard) (want : Nat) (rs : List String) (sv : Int)
    (hwant : want ≤ maxCopies) :
    want ≤ countName (addCard maxCopies deck c want rs sv) c.name := by
  unfold addCard
  by_cases hb : isBasicLand c = true
  · by_cases hw : want = 0
    · simp [hb, hw]
    · simp only [hb, if_true, hw, if_false]
      rw [countName_append_one]
      simp
  · by_cases ha : min want (maxCopies - countName deck c.name) = 0
    · simp only [hb, Bool.false_eq_true, if_false, ha, if_true]
      rcases Nat.min_eq_zero_iff.mp ha with h0 | h0
      · omega
      · have hcur : maxCopies ≤ countName deck c.name := by omega
        omega
    · simp only [hb, Bool.false_eq_true, if_false, ha]
      rw [countName_append_one]
      have hname : ((⟨c, min want (maxCopies - countName deck c.name), rs, sv⟩ :
          DeckCard).card.name = c.name) := rfl
      rw [if_pos hname]
      dsimp only
      rcases Nat.le_total want (maxCopies - countName deck c.name) with hle | hle
      · rw [Nat.min_eq_left hle]
        omega
      · rw [Nat.min_eq_right hle]
        omega

/-- An eligible priority card present in the pool ends the injection stage
with at least its capped quantity. -/
theorem priorityStage_count (sc : CandidateCard → Int) (ownedOnly : Bool)
    (maxCopies : Nat) (elig : CandidateCard → Bool) (pool : List CandidateCard)
    (pc : PriorityCard) (c : CandidateCard)
    (hf : findByName pool pc.name = some c) (he : elig c = true) :
    ∀ (pcs : List PriorityCard), pc ∈ pcs → ∀ (deck : List DeckCard),
      priorityWant ownedOnly maxCopies pc c
        ≤ countName (priorityStage sc ownedOnly maxCopies elig pool pcs deck).deck pc.name := by
  intro pcs
  induction pcs with
  | nil => intro h; cases h
  | cons pc0 rest ih =>
      intro hmem deck
      rcases List.mem_cons.mp hmem with heq | hmem'
      · subst heq
        simp only [priorityStage, hf, he, if_true]
        have hname : c.name = pc.name := findByName_name pool pc.name c hf
        have hge : priorityWant ownedOnly maxCopies pc c
            ≤ countName (addCard maxCopies deck c
                (priorityWant ownedOnly maxCopies pc c) ["priority"] (sc c)) pc.name := by
          rw [← hname]
          exact addCard_count_ge _ _ _ _ _ _ (priorityWant_le_max _ _ _ _)
        exact Nat.le_trans hge
          (countName_priorityStage_mono sc ownedOnly maxCopies elig pool rest _ _)
      · cases hf0 : findByName pool pc0.name with
        | none =>
            simp only [priorityStage, hf0]
            exact ih hmem' deck
        | some c0 =>
            by_cases he0 : elig c0 = true
            · simp only [priorityStage, hf0, he0, if_true]
              exact ih hmem' _
            · simp only [priorityStage, hf0, he0, if_false]
              exact ih hmem' deck

/-- An eligible priority card whose capped quantity falls short of
`min_copies` leaves a descriptive entry in the stage's unmet conditions. -/
theorem priorityStage_unmet (sc : CandidateCard → Int) (ownedOnly : Bool)
    (maxCopies : Nat) (elig : CandidateCard → Bool) (pool : List CandidateCard)
    (pc : PriorityCard) (c : CandidateCard)
    (hf : findByName pool pc.name = some c) (he : elig c = true)
    (hshort : priorityWant ownedOnly maxCopies pc c < pc.min_copies) :
    ∀ (pcs : List PriorityCard), pc ∈ pcs → ∀ (deck : List DeckCard),
      prioShortMsg pc (priorityWant ownedOnly maxCopies pc c)
        ∈ (priorityStage sc ownedOnly maxCopies elig pool pcs deck).unmets := by
  intro pcs
  induction pcs with
  | nil => intro h; cases h
  | cons pc0 rest ih =>
      intro hmem deck
      rcases List.mem_cons.mp hmem with heq | hmem'
      · subst heq
        simp only [priorityStage, hf, he, if_true]
        rw [if_pos hshort]
        exact List.mem_append_left _ (List.mem_singleton_self _)
      · cases hf0 : findByName pool pc0.name with
        | none =>
            simp only [priorityStage, hf0]
            exact List.mem_cons_of_mem _ (ih hmem' deck)
        | some c0 =>
            by_cases he0 : elig c0 = true
            · simp only [priorityStage, hf0, he0, if_true]
              exact List.mem_append_right _ (ih hmem' _)
            · simp only [priorityStage, hf0, he0, if_false]
              exact List.mem_cons_of_mem _ (ih hmem' deck)

/-- C5: a priority card present in the pool, legal and color-compatible,
appears in every successful build with at least
`min(min_copies, max_card_copies, owned_qty when owned_cards_only)` copies;
when that achievable quantity is below `min_copies`, the shortfall is
recorded in `unmet_conditions` (and, the build being successful, it did not
fail for that reason). -/
theorem priority_card_quantity :
    ∀ (cfg : DeckConfig) (pool : List CandidateCard) (own : List (String × Nat))
      (pc : PriorityCard) (c : CandidateCard) (r : BuildResult),
      pc ∈ cfg.priority_cards →
      findByName (applyOwnership pool own) pc.name = some c →
      isLegalFor cfg.legalities c = true →
      colorOk cfg.color_match_mode cfg.allow_colorless cfg.colors c = true →
      buildDeck cfg pool own = .ok r →
      priorityWant cfg.owned_cards_only cfg.max_card_copies pc c
          ≤ countName r.decklist pc.name ∧
      (priorityWant cfg.owned_cards_only cfg.max_card_copies pc c < pc.min_copies →
        prioShortMsg pc (priorityWant cfg.owned_cards_only cfg.max_card_copies pc c)
          ∈ r.build_context.unmet_conditions) := by
  intro cfg pool own pc c r hmem hf hleg hcol hok
  have helig : (fun x => isLegalFor cfg.legalities x
      && colorOk cfg.color_match_mode cfg.allow_colorless cfg.colors x) c = true := by
    simp [hleg, hcol]
  constructor
  · rw [buildDeck_ok_decklist hok, countName_flagNotables]
    unfold pipelineOf runPipeline
    refine Nat.le_trans ?_ (countName_fallbackStage_mono _ _ _ _ _ _ _ _ _)
    refine Nat.le_trans ?_ (countName_manaBaseStage_mono _ _ _ _ _ _)
    refine Nat.le_trans ?_ (countName_categoriesStage_mono _ _ _ _ _ _ _ _)
    exact priorityStage_count _ cfg.owned_cards_only cfg.max_card_copies _
      (applyOwnership pool own) pc c hf helig cfg.priority_cards hmem []
  · intro hshort
    rw [buildDeck_ok_context hok]
    unfold pipelineOf runPipeline
    exact List.mem_append_left _ (List.mem_append_left _ (List.mem_append_left _
      (priorityStage_unmet _ cfg.owned_cards_only cfg.max_card_copies _
        (applyOwnership pool own) pc c hf helig hshort cfg.priority_cards hmem [])))

/-- C5 witness: the burn build contains its priority card `Bolt` with at
least `min(2, 4) = 2` copies. -/
theorem priority_card_quantity_witness :
    priorityWant boltConfig.owned_cards_only boltConfig.max_card_copies
        ⟨"Bolt", 2⟩ boltCard
      ≤ countName boltResult.decklist "Bolt" :=
  (priority_card_quantity boltConfig [boltCard] [] ⟨"Bolt", 2⟩ boltCard boltResult
    (by decide) rfl (by decide) (by decide) rfl).1

/-! ## Error-handling design (claim C6) -/

/-- C6: shortfalls are non-fatal and escalate to a fatal `BuildFailure` if
and only if `allow_less_than_target` is false and the assembled deck is
smaller than `deck.size`; no deck is returned only on configuration
validation failure; every other build returns the assembled deck together
with the pipeline's `unmet_conditions`. -/
theorem build_failure_iff :
    ∀ (cfg : DeckConfig) (pool : List CandidateCard) (own : List (String × Nat)),
      (validConfig cfg.name cfg.colors cfg.size cfg.max_card_copies = false →
        buildDeck cfg pool own = .error (.configError "invalid configuration")) ∧
      (validConfig cfg.name cfg.colors cfg.size cfg.max_card_copies = true →
        ((∃ ctx, buildDeck cfg pool own = .error (.buildFailure ctx)) ↔
          (cfg.fallback_strategy.allow_less_than_target = false ∧
            totalQty (pipelineOf cfg pool own).deck < cfg.size))) ∧
      (validConfig cfg.name cfg.colors cfg.size cfg.max_card_copies = true →
        (cfg.fallback_strategy.allow_less_than_target = true ∨
          cfg.size ≤ totalQty (pipelineOf cfg pool own).deck) →
        buildDeck cfg pool own
          = .ok ⟨flagNotables cfg.scoring_rules.min_score_to_flag
                  (pipelineOf cfg pool own).deck,
                ⟨(pipelineOf cfg pool own).ops, (pipelineOf cfg pool own).unmets,
                 (pipelineOf cfg pool own).summary⟩⟩) := by
  intro cfg pool own
  refine ⟨?_, ?_, ?_⟩
  · intro hv
    unfold buildDeck assembleResult
    simp [hv]
  · intro hv
    unfold buildDeck assembleResult
    simp only [hv, if_true]
    by_cases hc : (totalQty (pipelineOf cfg pool own).deck < cfg.size
        && !cfg.fallback_strategy.allow_less_than_target) = true
    · rw [if_pos hc]
      have hc' : totalQty (pipelineOf cfg pool own).deck < cfg.size ∧
          cfg.fallback_strategy.allow_less_than_target = false := by
        simpa using hc
      constructor
      · intro _
        exact ⟨hc'.2, hc'.1⟩
      · intro _
        exact ⟨_, rfl⟩
    · rw [if_neg hc]
      constructor
      · intro ⟨ctx, hctx⟩
        cases hctx
      · intro ⟨hall, hlt⟩
        exact absurd (by simp [hall, hlt]) hc
  · intro hv hok
    unfold buildDeck assembleResult
    have hc : (totalQty (pipelineOf cfg pool own).deck < cfg.size
        && !cfg.fallback_strategy.allow_less_than_target) = false := by
      rcases hok with h | h
      · simp [h]
      · have hnlt : ¬ (totalQty (pipelineOf cfg pool own).deck < cfg.size) :=
          Nat.not_lt.mpr h
        simp [hnlt]
    simp only [hv, if_true, hc, Bool.false_eq_true, if_false]

/-- C6 witness: the mono-green build (valid configuration,
`allow_less_than_target = true`) returns the assembled deck. -/
theorem build_failure_iff_witness :
    buildDeck monoGreenConfig [] []
      = .ok ⟨flagNotables monoGreenConfig.scoring_rules.min_score_to_flag
              (pipelineOf monoGreenConfig [] []).deck,
            ⟨(pipelineOf monoGreenConfig [] []).ops,
             (pipelineOf monoGreenConfig [] []).unmets,
             (pipelineOf monoGreenConfig [] []).summary⟩⟩ :=
  (build_failure_iff monoGreenConfig [] []).2.2 (by decide) (Or.inl rfl)

end MTGDeckBuilder
